import Mathlib

/-!
Verification development for the `yaw` raycasting engine.

The Rust source (`src/map.rs`, `src/game.rs`, `src/ray.rs`) is shallowly
embedded below.  `f32` arithmetic is modelled over `ℚ` (every operation the
embedded code performs — addition, multiplication, division by the power of
two `TILE_SIZE = 32`, remainder, comparison — is exact on the dyadic inputs
that arise, so the rational semantics mirrors the float semantics on the
domain of interest).  `usize` casts keep Rust's saturating `as` semantics.
Fallible Rust code (`anyhow::Result`) is embedded as `Except`; Rust panics
(`HashMap` indexing on a missing key, integer division by zero) are embedded
as dedicated error constructors so that "does not panic" claims are statable.
-/

deriving instance DecidableEq for Except

namespace Yaw

/-! ## Numeric model: f32-as-ℚ and usize casts -/

/-- `usize::MAX` on the 64-bit targets the engine builds for. -/
def USIZE_MAX : ℕ := 2 ^ 64 - 1

/-- Truncation toward zero, the rounding used both by Rust's float `%`
operator and by float-to-integer `as` casts. -/
def qtrunc (q : ℚ) : ℤ := if q < 0 then -⌊-q⌋ else ⌊q⌋

/-- Rust's float remainder `a % b`: `a - b * trunc (a / b)` (sign of the
dividend). -/
def frem (a b : ℚ) : ℚ := a - b * (qtrunc (a / b) : ℚ)

/-- Rust's saturating float-to-`usize` cast: negative values (and `NaN`)
go to `0`, values past `usize::MAX` saturate.  On nonnegative in-range
values it truncates (= floor). -/
def f32_as_usize (q : ℚ) : ℕ := if q < 0 then 0 else min ⌊q⌋.toNat USIZE_MAX

/-- `glam::Vec2`, componentwise over the rational float model. -/
abbrev Vec2 := ℚ × ℚ

/-- `Vec2::length_squared`: `x*x + y*y`. -/
def lengthSq (v : Vec2) : ℚ := v.1 * v.1 + v.2 * v.2

/-- The `'\0'` sentinel character stored in a no-hit `RayCast`. -/
def nullChar : Char := Char.ofNat 0

/-! ## Data model (`src/map.rs`) -/

/-- `TILE_SIZE` (map.rs line 21). -/
def TILE_SIZE : ℚ := 32

/-- `sdl2::pixels::Color` restricted to the RGB channels the map format
uses (each channel a `u8`, kept as `ℕ` with values `≤ 255` by parsing). -/
structure Color where
  r : ℕ
  g : ℕ
  b : ℕ
deriving DecidableEq, Repr

/-- `Tile` (map.rs lines 23-28). -/
inductive Tile where
  | Empty : Tile
  | Spawn : Tile
  | Custom : Char → Tile
deriving DecidableEq, Repr

/-- `CustomTile` (map.rs lines 30-36). -/
structure CustomTile where
  collidable : Bool
  tex_path : String
  half_width : Bool
  half_height : Bool
deriving DecidableEq, Repr

/-- `Meta` (map.rs lines 38-41). -/
inductive Meta where
  | fog : ℕ → Color → Meta
deriving DecidableEq, Repr

/-- `Map` (map.rs lines 43-52).  `HashMap`/`HashSet` fields are embedded as
association lists / lists (lookup = first match; insertion conses to the
front, so a later insertion of the same key shadows the earlier one, exactly
the observable behaviour of `HashMap::insert`).  The lazily filled texture
byte cache `main_tex_cache` is runtime IO state outside the data model and
is omitted; `prefix` (the map file's parent directory) is kept as a plain
string under the name `parentDir`. -/
structure Map where
  width : ℕ
  height : ℕ
  main_tiles : List Tile
  custom_tiles : List (Char × CustomTile)
  meta : List Meta
  parentDir : String
deriving DecidableEq, Repr

/-- `Map::default()`. -/
def emptyMap : Map := ⟨0, 0, [], [], [], ""⟩

/-- `HashMap::get` over the association-list embedding. -/
def hmGet {α β : Type} [BEq α] (l : List (α × β)) (k : α) : Option β :=
  (l.find? (fun p => p.1 == k)).map (fun p => p.2)

/-- Rust's `HashMap` `[]` indexing panics when the key is missing; every
reachable use in the engine is guarded by a preceding successful `colliding`
query, so the default value on the missing-key branch is never observable.
We make the function total with that default. -/
def hmIndexD (l : List (Char × CustomTile)) (k : Char) : CustomTile :=
  (hmGet l k).getD ⟨false, "", false, false⟩

/-- `HashSet::insert` over the list embedding. -/
def hsInsert (l : List Meta) (x : Meta) : List Meta :=
  if x ∈ l then l else l ++ [x]

/-! ## Map-source parsing (`src/map.rs` lines 9-19 and 55-155) -/

/-- Load / parse errors.  The `panic` constructors model Rust panics (which
are *not* `anyhow` parse errors): `panicDivZero` is the
`tiles.len() / height` division with `height == 0` in `parse_main`
(map.rs line 149), distinguished from genuine `anyhow::bail!` errors. -/
inductive LoadErr where
  | unrecognizedDirective : String → LoadErr
  | malformedMeta : LoadErr
  | unrecognizedMetaDirective : String → LoadErr
  | intParseErr : LoadErr
  | hexColorErr : LoadErr
  | invalidTile : Char → LoadErr
  | panicDivZero : LoadErr
  | outOfFuel : LoadErr
deriving DecidableEq, Repr

/-- Value of one hexadecimal digit, over raw code points (0-9 / a-f /
A-F). -/
def hexDigitVal (c : Char) : Option ℕ :=
  match c.toNat with
  | n =>
      if 48 ≤ n ∧ n ≤ 57 then some (n - 48)
      else if 97 ≤ n ∧ n ≤ 102 then some (n - 87)
      else if 65 ≤ n ∧ n ≤ 70 then some (n - 55)
      else none

/-- `u8::from_str_radix(s, 16)`: optional leading `+`, at least one hex
digit, value must fit in a `u8`. -/
def fromStrRadix16 (cs : List Char) : Option ℕ :=
  let ds := match cs with
    | '+' :: rest => rest
    | other => other
  if ds.isEmpty then none
  else
    (ds.foldl (fun acc c => acc.bind (fun a => (hexDigitVal c).map (fun d => a * 16 + d)))
      (some 0)).bind (fun v => if v ≤ 255 then some v else none)

/-- `str::parse::<u8>`: optional leading `+`, at least one decimal digit,
value must fit in a `u8`. -/
def parseU8 (s : String) : Option ℕ :=
  let ds := match s.toList with
    | '+' :: rest => rest
    | other => other
  if ds.isEmpty then none
  else if ds.all Char.isDigit then
    let v := ds.foldl (fun a c => a * 10 + c.toNat - 48) 0
    if v ≤ 255 then some v else none
  else none

/-- `parse_hex_color` (map.rs lines 9-19).  Note the source reads the blue
channel from byte slice `4..=5` (the second green digit and the first blue
digit), not `5..=6`. -/
def parse_hex_color (hex : String) : Except LoadErr Color :=
  let cs := hex.toList
  if cs.length ≠ 7 then .error .hexColorErr
  else if cs.headD ' ' ≠ '#' then .error .hexColorErr
  else
    match fromStrRadix16 ((cs.drop 1).take 2), fromStrRadix16 ((cs.drop 3).take 2),
        fromStrRadix16 ((cs.drop 4).take 2) with
    | some r, some g, some b => .ok ⟨r, g, b⟩
    | _, _, _ => .error .hexColorErr

/-- `str::split(',')` over characters: at least one piece, empty pieces
preserved (`"a,,b" ↦ ["a","","b"]`, `"" ↦ [""]`). -/
def splitCommaChars : List Char → List (List Char)
  | [] => [[]]
  | c :: rest =>
      let r := splitCommaChars rest
      if c = ',' then [] :: r
      else
        match r with
        | [] => [[c]]
        | h :: t => (c :: h) :: t

/-- String-level wrapper for `split(',')`. -/
def splitComma (s : String) : List String :=
  (splitCommaChars s.toList).map String.mk

/-- `str::split_once('=')`: split at the first occurrence, delimiter
removed; `none` when absent. -/
def splitOnceChars : List Char → Char → Option (List Char × List Char)
  | [], _ => none
  | a :: rest, c =>
      if a = c then some ([], rest)
      else (splitOnceChars rest c).map (fun p => (a :: p.1, p.2))

/-- String-level wrapper for `split_once`. -/
def splitOnce (s : String) (c : Char) : Option (String × String) :=
  (splitOnceChars s.toList c).map (fun p => (String.mk p.1, String.mk p.2))

/-- `collect::<HashMap<_,_>>` over key/value pairs: later duplicates
overwrite, so cons each pair onto the front (first `find?` match = last
inserted). -/
def hmOfList (ps : List (String × String)) : List (String × String) :=
  ps.foldl (fun acc p => p :: acc) []

/-- The `fog` arm of `parse_meta` (map.rs lines 89-94): `dof` defaults to
`"4"`, `color` defaults to `"#000000"`, both parsed (dof first, as in the
struct literal's evaluation order); a parse failure of a present key
propagates. -/
def fogMeta (params : List (String × String)) : Except LoadErr Meta :=
  match parseU8 ((hmGet params "dof").getD "4") with
  | none => .error .intParseErr
  | some d =>
      match parse_hex_color ((hmGet params "color").getD "#000000") with
      | .error e => .error e
      | .ok c => .ok (.fog d c)

/-- `parse_meta` (map.rs lines 73-100): consume lines until an empty line
(or end of input); each line is `directive,key=value,...`; the parameter
pairs are collected before the directive is dispatched, so a malformed pair
errors even under an unknown directive. -/
def parse_meta (m : Map) : List String → Except LoadErr (Map × List String)
  | [] => .ok (m, [])
  | line :: rest =>
      if line = "" then .ok (m, rest)
      else
        match ((splitComma line).drop 1).mapM (fun p => splitOnce p '=') with
        | none => .error .malformedMeta
        | some ps =>
            if (splitComma line).headD "" = "fog" then
              match fogMeta (hmOfList ps) with
              | .error e => .error e
              | .ok mt => parse_meta { m with meta := hsInsert m.meta mt } rest
            else .error (.unrecognizedMetaDirective ((splitComma line).headD ""))

/-- Legend phase of `parse_main` (map.rs lines 106-129): consume lines
until an empty line (or end of input); each line is
`<symbol><texture>[,flags...]`.  `other[0]` is always present because
`split(',')` yields at least one piece. -/
def parse_legend (acc : List (Char × CustomTile)) :
    List String → List (Char × CustomTile) × List String
  | [] => (acc, [])
  | line :: rest =>
      if line = "" then (acc, rest)
      else
        match line.toList with
        | [] => (acc, rest)
        | id :: tailChars =>
            let other := splitComma (String.mk tailChars)
            let tile : CustomTile :=
              { collidable := other.contains "collide"
                tex_path := other.headD ""
                half_width := other.contains "half_width"
                half_height := other.contains "half_height" }
            parse_legend ((id, tile) :: acc) rest

/-- One grid row (map.rs lines 139-146): space = Empty, `*` = Spawn, legend
symbol = Custom, anything else is a parse error. -/
def parseRow (legend : List (Char × CustomTile)) : List Char → Except LoadErr (List Tile)
  | [] => .ok []
  | c :: rest =>
      if c = ' ' then
        match parseRow legend rest with
        | .error e => .error e
        | .ok tiles => .ok (Tile.Empty :: tiles)
      else if c = '*' then
        match parseRow legend rest with
        | .error e => .error e
        | .ok tiles => .ok (Tile.Spawn :: tiles)
      else if (hmGet legend c).isSome then
        match parseRow legend rest with
        | .error e => .error e
        | .ok tiles => .ok (Tile.Custom c :: tiles)
      else .error (.invalidTile c)

/-- Grid phase of `parse_main` (map.rs lines 131-147). -/
def parse_grid (legend : List (Char × CustomTile)) (height : ℕ) (tiles : List Tile) :
    List String → Except LoadErr (ℕ × List Tile × List String)
  | [] => .ok (height, tiles, [])
  | line :: rest =>
      if line = "" then .ok (height, tiles, rest)
      else
        match parseRow legend line.toList with
        | .error e => .error e
        | .ok row => parse_grid legend (height + 1) (tiles ++ row) rest

/-- `parse_main` (map.rs lines 102-155).  `self.width = tiles.len() / height`
panics by division by zero when the grid is empty (`height == 0`); that
panic is surfaced as `LoadErr.panicDivZero`. -/
def parse_main (m : Map) (ls : List String) : Except LoadErr (Map × List String) :=
  match parse_grid (parse_legend [] ls).1 0 [] (parse_legend [] ls).2 with
  | .error e => .error e
  | .ok (height, tiles, rest2) =>
      if height = 0 then .error .panicDivZero
      else
        .ok ({ m with
                width := tiles.length / height
                height := height
                main_tiles := tiles
                custom_tiles := (parse_legend [] ls).1 }, rest2)

/-- The directive loop of `Map::load` (map.rs lines 62-68), fuel-bounded:
every iteration consumes at least the directive line, so fuel equal to the
number of remaining lines can never run out (the `[]` case fires first). -/
def loadGo (m : Map) : ℕ → List String → Except LoadErr Map
  | _, [] => .ok m
  | 0, _ :: _ => .error .outOfFuel
  | fuel + 1, line :: rest =>
      if line = "!!!!META" then
        match parse_meta m rest with
        | .error e => .error e
        | .ok (m', rest') => loadGo m' fuel rest'
      else if line = "!!!!MAIN" then
        match parse_main m rest with
        | .error e => .error e
        | .ok (m', rest') => loadGo m' fuel rest'
      else .error (.unrecognizedDirective line)

/-- `Map::load` on the already-read lines of the map source (file IO is the
excluded collaborator; `prefix` stays at its default). -/
def load (ls : List String) : Except LoadErr Map :=
  loadGo emptyMap ls.length ls

/-! ## Spatial queries (`src/map.rs` lines 172-199) -/

/-- `Map::idx_to_vec` (map.rs lines 172-176).  With `width = 0` the Rust
`%`/`/` panic; theorems about this function assume `0 < width`, which every
successfully loaded map satisfies. -/
def Map.idx_to_vec (m : Map) (idx : ℕ) : Vec2 :=
  (((idx % m.width : ℕ) : ℚ) * TILE_SIZE,
    (((idx - idx % m.width) / m.width : ℕ) : ℚ) * TILE_SIZE)

/-- `Map::vec_to_idx` (map.rs lines 178-180): saturating `as usize` casts
of `y / TILE_SIZE` and `x / TILE_SIZE`, combined as `y * width + x` in
`usize` arithmetic — wrapping modulo `2^64` on overflow as in release
builds (a debug build panics there instead). -/
def Map.vec_to_idx (m : Map) (v : Vec2) : ℕ :=
  (f32_as_usize (v.2 / TILE_SIZE) * m.width + f32_as_usize (v.1 / TILE_SIZE)) % 2 ^ 64

/-- `Map::get_spawn` (map.rs lines 182-185). -/
def Map.get_spawn (m : Map) : Option Vec2 :=
  (m.main_tiles.findIdx? (fun t => decide (t = Tile.Spawn))).map m.idx_to_vec

/-- `Map::colliding` (map.rs lines 187-199). -/
def Map.colliding (m : Map) (position : Vec2) (is_player : Bool) : Option Char :=
  match m.main_tiles.get? (m.vec_to_idx position) with
  | some (Tile.Custom id) =>
      if ((hmGet m.custom_tiles id).map (fun t => !is_player || t.collidable)).getD false
      then some id else none
  | _ => none

/-! ## Ray casting (`src/ray.rs`, `src/game.rs` lines 216-381)

One column of `cast_rays` is embedded as `castColumn`, parameterized by the
player position and by the ray's direction vector `angle_vec`
(`Vec2::from_angle(angle)`).  The source's quadrant tests on the normalized
scalar `angle` are exactly the sign tests on `angle_vec`'s components
(`angle ∈ (0, π) ↔ sin angle > 0`, `angle ∈ (π/2, 3π/2) ↔ cos angle < 0`,
`angle ∈ {0, π} ↔ sin angle = 0`, `angle ∈ {π/2, 3π/2} ↔ cos angle = 0`),
which is how they are rendered here; the trigonometric evaluation of
`from_angle` itself belongs to the excluded float library. -/

/-- `Cardinal` (ray.rs lines 3-9). -/
inductive Cardinal where
  | North : Cardinal
  | East : Cardinal
  | South : Cardinal
  | West : Cardinal
deriving DecidableEq, Repr

/-- `DOF` (game.rs line 43). -/
def DOF : ℕ := 24

/-- `FOV` in degrees (game.rs line 42). -/
def FOV : ℕ := 60

/-- Screen width in columns (main.rs line 29). -/
def WIDTH : ℕ := 640

/-- Screen height in pixels (main.rs line 30). -/
def HEIGHT : ℕ := 480

/-- The mutable state of one grid-stepping search: the candidate offset
`ray`, the per-iteration `step`, and the face orientation this search
reports (the `(ray, step, cardinal)` triple of game.rs lines 239-298). -/
structure SearchRay where
  ray : Vec2
  step : Vec2
  cardinal : Cardinal
deriving DecidableEq, Repr

/-- A recorded search hit: `(offset, cardinal, tile)` as stored in
`x_res`/`y_res` (game.rs lines 300-350). -/
abbrev Hit := Vec2 × Cardinal × Char

/-- Horizontal-line search setup (game.rs lines 239-267): looking down
(`angle ∈ (0, π)`, i.e. `angle_vec.y > 0`) steps `+TILE_SIZE` in y toward
North faces; looking up steps `-TILE_SIZE` (with the `-0.0001` epsilon
pushing the probe into the cell above) toward South faces; a ray parallel
to the x-axis has no horizontal-line search. -/
def setupH (pos : Vec2) (angle_vec : Vec2) : Option SearchRay :=
  if 0 < angle_vec.2 then
    let new_y := TILE_SIZE - frem pos.2 TILE_SIZE
    some ⟨(angle_vec.1 / angle_vec.2 * new_y, new_y),
      (angle_vec.1 / angle_vec.2 * TILE_SIZE, TILE_SIZE), Cardinal.North⟩
  else if angle_vec.2 < 0 then
    let new_y := -(frem pos.2 TILE_SIZE) - 1/10000
    some ⟨(angle_vec.1 / angle_vec.2 * new_y, new_y),
      (angle_vec.1 / angle_vec.2 * (-TILE_SIZE), -TILE_SIZE), Cardinal.South⟩
  else none

/-- Vertical-line search setup (game.rs lines 269-298): looking left
(`angle ∈ (π/2, 3π/2)`, i.e. `angle_vec.x < 0`) steps `-TILE_SIZE` in x
toward East faces; looking right steps `+TILE_SIZE` toward West faces; a
ray parallel to the y-axis has no vertical-line search. -/
def setupV (pos : Vec2) (angle_vec : Vec2) : Option SearchRay :=
  if angle_vec.1 < 0 then
    let new_x := -(frem pos.1 TILE_SIZE) - 1/10000
    some ⟨(new_x, angle_vec.2 / angle_vec.1 * new_x),
      (-TILE_SIZE, angle_vec.2 / angle_vec.1 * (-TILE_SIZE)), Cardinal.East⟩
  else if 0 < angle_vec.1 then
    let new_x := TILE_SIZE - frem pos.1 TILE_SIZE
    some ⟨(new_x, angle_vec.2 / angle_vec.1 * new_x),
      (TILE_SIZE, angle_vec.2 / angle_vec.1 * TILE_SIZE), Cardinal.West⟩
  else none

/-- One iteration of the horizontal search inside the DOF loop (game.rs
lines 303-326): while no result is recorded and the search is active,
query `colliding` in ray mode at `pos + ray`; a hit on a non-`half_width`
tile is accepted (nudged a quarter step forward when the tile is
`half_height`); the ray always advances by `step` afterwards. -/
def hStep (m : Map) (pos : Vec2) : Option SearchRay × Option Hit → Option SearchRay × Option Hit
  | (some s, none) =>
      let res : Option Hit :=
        match m.colliding (pos + s.ray) false with
        | some tile =>
            if (hmIndexD m.custom_tiles tile).half_width then none
            else
              some (s.ray +
                (if (hmIndexD m.custom_tiles tile).half_height
                 then (1/4 : ℚ) • s.step else ((0 : ℚ), (0 : ℚ))),
                s.cardinal, tile)
        | none => none
      (some { s with ray := s.ray + s.step }, res)
  | st => st

/-- One iteration of the vertical search (game.rs lines 327-350): mirror
image of `hStep` — `half_height` tiles are rejected, `half_width` tiles
are nudged. -/
def vStep (m : Map) (pos : Vec2) : Option SearchRay × Option Hit → Option SearchRay × Option Hit
  | (some s, none) =>
      let res : Option Hit :=
        match m.colliding (pos + s.ray) false with
        | some tile =>
            if (hmIndexD m.custom_tiles tile).half_height then none
            else
              some (s.ray +
                (if (hmIndexD m.custom_tiles tile).half_width
                 then (1/4 : ℚ) • s.step else ((0 : ℚ), (0 : ℚ))),
                s.cardinal, tile)
        | none => none
      (some { s with ray := s.ray + s.step }, res)
  | st => st

/-- The `for _ in 0..DOF` loop (game.rs lines 302-351), stepping both
searches in lockstep. -/
def castLoop (m : Map) (pos : Vec2) :
    ℕ → Option SearchRay × Option Hit → Option SearchRay × Option Hit → Option Hit × Option Hit
  | 0, xs, ys => (xs.2, ys.2)
  | fuel + 1, xs, ys => castLoop m pos fuel (hStep m pos xs) (vStep m pos ys)

/-- Proof-side view of the horizontal search alone (the two searches in
`castLoop` do not interact). -/
def hIter (m : Map) (pos : Vec2) : ℕ → Option SearchRay × Option Hit → Option Hit
  | 0, st => st.2
  | fuel + 1, st => hIter m pos fuel (hStep m pos st)

/-- Proof-side view of the vertical search alone. -/
def vIter (m : Map) (pos : Vec2) : ℕ → Option SearchRay × Option Hit → Option Hit
  | 0, st => st.2
  | fuel + 1, st => vIter m pos fuel (vStep m pos st)

/-- "find shortest ray" (game.rs lines 353-366).  The no-hit sentinel
`(Vec2::INFINITY, Cardinal::North, '\0')` is encoded with `none` in the
vector position (`+∞` is the only non-finite value this field ever takes). -/
def shortest (x_res y_res : Option Hit) : Option Vec2 × Cardinal × Char :=
  match x_res, y_res with
  | some (x, cardinal_x, tile_x), some (y, cardinal_y, tile_y) =>
      if lengthSq x < lengthSq y then (some x, cardinal_x, tile_x)
      else (some y, cardinal_y, tile_y)
  | some (ray, cardinal, tile), none => (some ray, cardinal, tile)
  | none, some (ray, cardinal, tile) => (some ray, cardinal, tile)
  | none, none => (none, Cardinal.North, nullChar)

/-- `hit_where` (game.rs lines 372-377): world coordinate of the hit point
modulo `TILE_SIZE`, x for North/South faces, y for East/West, flipped for
North/East so texture coordinates increase consistently. -/
def hitWhere (pos vec : Vec2) : Cardinal → ℚ
  | Cardinal.North => TILE_SIZE - frem (vec.1 + pos.1) TILE_SIZE
  | Cardinal.East => TILE_SIZE - frem (vec.2 + pos.2) TILE_SIZE
  | Cardinal.South => frem (vec.1 + pos.1) TILE_SIZE
  | Cardinal.West => frem (vec.2 + pos.2) TILE_SIZE

/-- The world coordinate `hit_where` is computed from for each face
direction (North/South read x, East/West read y). -/
def hitCoord (pos vec : Vec2) : Cardinal → ℚ
  | Cardinal.North => vec.1 + pos.1
  | Cardinal.South => vec.1 + pos.1
  | Cardinal.East => vec.2 + pos.2
  | Cardinal.West => vec.2 + pos.2

/-- `RayCast` (ray.rs lines 11-17).  `vec = none` encodes the
`Vec2::INFINITY` sentinel; `hit_where` is then the float garbage
`TILE_SIZE - (∞ % TILE_SIZE) = NaN`, encoded as `none`.  The scalar
`angle` field is carried by the excluded trigonometric layer and omitted
here (the direction vector plays its role). -/
structure RayCast where
  vec : Option Vec2
  face_direction : Cardinal
  hit_where : Option ℚ
  tile : Char
deriving DecidableEq, Repr

/-- One column of `cast_rays` (game.rs lines 236-379): set up both
searches, run the DOF-bounded loop, pick the shortest hit and assemble the
`RayCast` record. -/
def castColumn (m : Map) (pos : Vec2) (angle_vec : Vec2) : RayCast :=
  let res := castLoop m pos DOF (setupH pos angle_vec, none) (setupV pos angle_vec, none)
  let sel := shortest res.1 res.2
  { vec := sel.1
    face_direction := sel.2.1
    hit_where := sel.1.map (fun v => hitWhere pos v sel.2.1)
    tile := sel.2.2 }

/-! ## Wall drawing (`src/game.rs` lines 404-486)

The wall loop of `playing_draw`, reduced to the decisions the claims are
about: for *every* slice — there is no sentinel check in this loop, unlike
the minimap loop at line 504 — the strip's texture is resolved through
`load_tex`/`tex_path`, which indexes `custom_tiles[&slice.tile]` and
panics when the symbol has no legend entry.  The numeric strip height,
fog and shading arithmetic are float presentation output and are not
needed by any claim; the per-strip control flow and texture banding are
kept. -/

/-- Draw-pass failures: `keyNotFoundPanic` is the `HashMap` index panic in
`Map::tex_path` (map.rs line 169). -/
inductive DrawErr where
  | keyNotFoundPanic : DrawErr
deriving DecidableEq, Repr

/-- `PathBuf::join` restricted to the relative ASCII paths the maps use. -/
def pathJoin (a b : String) : String :=
  if a = "" then b else a ++ "/" ++ b

/-- `Map::tex_path` (map.rs lines 168-170), with the missing-key panic
made explicit. -/
def Map.tex_path_of (m : Map) (id : Char) : Except DrawErr String :=
  match hmGet m.custom_tiles id with
  | some t => .ok (pathJoin m.parentDir t.tex_path)
  | none => .error .keyNotFoundPanic

/-- Texture band for a face direction (game.rs lines 429-434). -/
def bandIndex : Cardinal → ℕ
  | Cardinal.North => 0
  | Cardinal.East => 1
  | Cardinal.South => 2
  | Cardinal.West => 3

/-- One per-column draw command handed to the renderer. -/
structure Strip where
  x : ℕ
  tile : Char
  band : ℕ
  tex : String
  u : Option ℚ
deriving DecidableEq, Repr

/-- The `for (i, slice) in self.slices.iter().enumerate()` wall loop
(game.rs lines 405-486): every slice's texture is looked up; no column is
skipped. -/
def drawWallsGo (m : Map) : ℕ → List RayCast → Except DrawErr (List Strip)
  | _, [] => .ok []
  | i, slice :: rest =>
      match m.tex_path_of slice.tile with
      | .error e => .error e
      | .ok p =>
          match drawWallsGo m (i + 1) rest with
          | .error e => .error e
          | .ok strips =>
              .ok ({ x := i
                     tile := slice.tile
                     band := bandIndex slice.face_direction
                     tex := p
                     u := slice.hit_where } :: strips)

/-- The wall-drawing pass over the frame's slice buffer. -/
def drawWalls (m : Map) (slices : List RayCast) : Except DrawErr (List Strip) :=
  drawWallsGo m 0 slices

/-- Map well-formedness: every `Custom` cell's symbol has a legend entry.
`parse_main` only admits grid characters with a legend entry, so every
loaded map satisfies this. -/
def WFMap (m : Map) : Bool :=
  m.main_tiles.all (fun t =>
    match t with
    | Tile.Custom c => (hmGet m.custom_tiles c).isSome
    | _ => true)

/-! ## Concrete scenarios used by the theorems below -/

/-- A 1×1 map holding only the spawn cell — no custom tiles, so every ray
misses (spec §8: such a map makes every cast return the sentinel). -/
def mapNoTiles : Map := ⟨1, 1, [Tile.Spawn], [], [], ""⟩

/-- A 2×2 map with a single ordinary wall tile in the bottom-right cell;
a ray from the origin along `(1,1)` reaches it through both searches at
the same squared distance. -/
def mapTie : Map :=
  ⟨2, 2, [Tile.Spawn, Tile.Empty, Tile.Empty, Tile.Custom 'A'],
    [('A', ⟨true, "w", false, false⟩)], [], ""⟩

/-- A 1-wide, 2-tall map with an ordinary wall tile below the origin cell;
a ray cast straight down hits its North face exactly on a tile corner. -/
def mapNorthWall : Map :=
  ⟨1, 2, [Tile.Empty, Tile.Custom 'A'], [('A', ⟨false, "a", false, false⟩)], [], ""⟩

/-- A 1-wide, 2-tall map whose wall tile below the origin is `half_height`:
the horizontal search accepts it and nudges the hit a quarter step. -/
def mapHalfH : Map :=
  ⟨1, 2, [Tile.Empty, Tile.Custom 'H'], [('H', ⟨false, "h", false, true⟩)], [], ""⟩

/-- A 2-wide, 1-tall map whose wall tile right of the origin is
`half_width`: the vertical search accepts it and nudges the hit a quarter
step. -/
def mapHalfV : Map :=
  ⟨2, 1, [Tile.Empty, Tile.Custom 'V'], [('V', ⟨false, "v", true, false⟩)], [], ""⟩

/-- A 2×1 map with one non-collidable (`'A'`) and one collidable (`'B'`)
custom tile. -/
def mapColl : Map :=
  ⟨2, 1, [Tile.Custom 'A', Tile.Custom 'B'],
    [('A', ⟨false, "a", false, false⟩), ('B', ⟨true, "b", false, false⟩)], [], ""⟩

/-- An all-empty 2×2 map (the spatial index functions ignore cell
contents). -/
def map2x2 : Map := ⟨2, 2, [Tile.Empty, Tile.Empty, Tile.Empty, Tile.Empty], [], [], ""⟩

/-- Horizontal search state aimed straight down from the origin
(`setupH (0,0) (0,1)`). -/
def sxDown : SearchRay := ⟨((0 : ℚ), (32 : ℚ)), ((0 : ℚ), (32 : ℚ)), Cardinal.North⟩

/-- Vertical search state aimed straight right from the origin
(`setupV (0,0) (1,0)`). -/
def syRight : SearchRay := ⟨((32 : ℚ), (0 : ℚ)), ((32 : ℚ), (0 : ℚ)), Cardinal.West⟩

/-! ## Theorems -/

section Claims

attribute [local semireducible] Rat.add Rat.mul Rat.inv Rat.sub

/-- C9: the claim predicts `#000102 ↦ (r,g,b) = (0,1,2)`, but
`parse_hex_color` slices the blue channel from hex digits 4..=5 — the
second green digit and the first blue digit — so `#000102` parses to
blue `0x10 = 16`, not `0x02 = 2`.  The red and green channels do come out
as the first and second pairs. -/
theorem c9_hex_blue_channel :
    parse_hex_color "#000102" = .ok ⟨0, 1, 16⟩ ∧ (16 : ℕ) ≠ 2 := by
  exact ⟨by decide, by decide⟩

/-- C3: three of the four listed malformed inputs do return parse errors
(unknown directive, malformed `key=value` metadata, grid character without
a legend entry), but an empty grid does *not* produce a parse error value:
`parse_main` evaluates `tiles.len() / height` with `height = 0` and the
program panics with a division by zero. -/
theorem c3_load_error_cases :
    load ["!!!!FOO"] = .error (.unrecognizedDirective "!!!!FOO") ∧
    load ["!!!!META", "fog,oops"] = .error .malformedMeta ∧
    load ["!!!!MAIN", "Aw.png", "", "AB"] = .error (.invalidTile 'B') ∧
    load ["!!!!MAIN"] = .error .panicDivZero := by
  exact ⟨by decide, by decide, by decide, by decide⟩

/-- C1: the claim (and spec §4.4) says sentinel columns are skipped and
the texture lookup is never reached, but the wall loop of `playing_draw`
iterates over *every* slice with no sentinel check: on a map with no
custom tiles, a cast column is the infinite sentinel with tile `'\0'`,
and the draw pass indexes `custom_tiles['\0']` — a panic, not a skip. -/
theorem c1_sentinel_column_panics_draw :
    load ["!!!!MAIN", "", "*"] = .ok mapNoTiles ∧
    mapNoTiles.get_spawn = some ((0 : ℚ), (0 : ℚ)) ∧
    castColumn mapNoTiles ((0 : ℚ), (0 : ℚ)) ((1 : ℚ), (0 : ℚ)) =
      ⟨none, Cardinal.North, none, nullChar⟩ ∧
    drawWalls mapNoTiles [castColumn mapNoTiles ((0 : ℚ), (0 : ℚ)) ((1 : ℚ), (0 : ℚ))] =
      .error .keyNotFoundPanic := by
  exact ⟨by decide, by decide, by decide, by decide⟩

/-- C2 counterexample: a 45° ray from the origin of `mapTie` makes both
searches hit the same corner `(32,32)` — equal squared lengths — and the
code's `x.length_squared() < y.length_squared()` comparison fails on the
tie, so the *vertical* search's hit (`West` face) is selected, not the
horizontal one (`North`) as the claim states. -/
theorem c2_tie_vertical_wins :
    castLoop mapTie ((0 : ℚ), (0 : ℚ)) DOF
        (setupH ((0 : ℚ), (0 : ℚ)) ((1 : ℚ), (1 : ℚ)), none)
        (setupV ((0 : ℚ), (0 : ℚ)) ((1 : ℚ), (1 : ℚ)), none) =
      (some (((32 : ℚ), (32 : ℚ)), Cardinal.North, 'A'),
        some (((32 : ℚ), (32 : ℚ)), Cardinal.West, 'A')) ∧
    (castColumn mapTie ((0 : ℚ), (0 : ℚ)) ((1 : ℚ), (1 : ℚ))).face_direction = Cardinal.West ∧
    Cardinal.West ≠ Cardinal.North := by
  exact ⟨by decide, by decide, by decide⟩

/-- C2 (amended): per column, when both searches hit, the hit with the
strictly smaller squared length is selected and the *vertical* search's
hit is selected on an exact tie; a lone hit is selected; with no hits the
result is the sentinel (infinite vector encoded `none`, null tile). -/
theorem c2_shortest_selection :
    (∀ x y : Hit, lengthSq x.1 < lengthSq y.1 →
      shortest (some x) (some y) = (some x.1, x.2.1, x.2.2)) ∧
    (∀ x y : Hit, ¬ lengthSq x.1 < lengthSq y.1 →
      shortest (some x) (some y) = (some y.1, y.2.1, y.2.2)) ∧
    (∀ x : Hit, shortest (some x) none = (some x.1, x.2.1, x.2.2)) ∧
    (∀ y : Hit, shortest none (some y) = (some y.1, y.2.1, y.2.2)) ∧
    shortest none none = (none, Cardinal.North, nullChar) := by
  refine ⟨?_, ?_, ?_, ?_, rfl⟩
  · rintro ⟨xv, xc, xt⟩ ⟨yv, yc, yt⟩ h
    simp [shortest, if_pos h]
  · rintro ⟨xv, xc, xt⟩ ⟨yv, yc, yt⟩ h
    simp [shortest, if_neg h]
  · rintro ⟨xv, xc, xt⟩; rfl
  · rintro ⟨yv, yc, yt⟩; rfl

/-- C2 witness: the amended selection rule applied at concrete hits. -/
theorem c2_shortest_selection_witness :
    lengthSq ((3 : ℚ), (0 : ℚ)) < lengthSq ((4 : ℚ), (0 : ℚ)) ∧
    shortest (some (((3 : ℚ), (0 : ℚ)), Cardinal.North, 'A'))
        (some (((4 : ℚ), (0 : ℚ)), Cardinal.West, 'B')) =
      (some ((3 : ℚ), (0 : ℚ)), Cardinal.North, 'A') ∧
    ¬ lengthSq ((0 : ℚ), (5 : ℚ)) < lengthSq ((5 : ℚ), (0 : ℚ)) ∧
    shortest (some (((0 : ℚ), (5 : ℚ)), Cardinal.North, 'A'))
        (some (((5 : ℚ), (0 : ℚ)), Cardinal.West, 'B')) =
      (some ((5 : ℚ), (0 : ℚ)), Cardinal.West, 'B') := by
  refine ⟨by decide, c2_shortest_selection.1 _ _ (by decide), by decide,
    c2_shortest_selection.2.1 _ _ (by decide)⟩

/-- C10: in a metadata fog line both parameters are optional — with no
`dof` key the depth defaults to 4, with no `color` key the color defaults
to black `#000000` — while a key that *is* present must parse for the line
(and hence `load`) to succeed.  Stated over the fog handler for arbitrary
parameter maps, plus end-to-end `load` runs. -/
theorem c10_fog_defaults :
    (∀ params : List (String × String), hmGet params "dof" = none →
      hmGet params "color" = none → fogMeta params = .ok (Meta.fog 4 ⟨0, 0, 0⟩)) ∧
    (∀ params : List (String × String), hmGet params "dof" = none →
      (∃ e, fogMeta params = .error e) ∨ (∃ c, fogMeta params = .ok (Meta.fog 4 c))) ∧
    (∀ params : List (String × String), hmGet params "color" = none →
      (∃ e, fogMeta params = .error e) ∨ (∃ d, fogMeta params = .ok (Meta.fog d ⟨0, 0, 0⟩))) ∧
    (∀ (params : List (String × String)) (s : String), hmGet params "dof" = some s →
      parseU8 s = none → fogMeta params = .error .intParseErr) ∧
    (∀ (params : List (String × String)) (s : String) (e : LoadErr),
      hmGet params "color" = some s → parse_hex_color s = .error e →
      ∀ mt : Meta, fogMeta params ≠ .ok mt) ∧
    load ["!!!!META", "fog", "", "!!!!MAIN", "Aw,collide", "", "*A"] =
      .ok ⟨2, 1, [Tile.Spawn, Tile.Custom 'A'], [('A', ⟨true, "w", false, false⟩)],
        [Meta.fog 4 ⟨0, 0, 0⟩], ""⟩ ∧
    load ["!!!!META", "fog,dof=9", ""] = .ok { emptyMap with meta := [Meta.fog 9 ⟨0, 0, 0⟩] } ∧
    load ["!!!!META", "fog,color=#ff0000", ""] =
      .ok { emptyMap with meta := [Meta.fog 4 ⟨255, 0, 0⟩] } ∧
    load ["!!!!META", "fog,dof=abc", ""] = .error .intParseErr := by
  refine ⟨?_, ?_, ?_, ?_, ?_, by decide, by decide, by decide, by decide⟩
  · intro params h1 h2
    unfold fogMeta
    rw [h1, h2]
    decide
  · intro params h1
    unfold fogMeta
    rw [h1]
    rw [show parseU8 ((none : Option String).getD "4") = some 4 from by decide]
    cases hc : parse_hex_color ((hmGet params "color").getD "#000000") with
    | error e => exact Or.inl ⟨e, rfl⟩
    | ok c => exact Or.inr ⟨c, rfl⟩
  · intro params h2
    unfold fogMeta
    rw [h2]
    cases hd : parseU8 ((hmGet params "dof").getD "4") with
    | none => exact Or.inl ⟨.intParseErr, rfl⟩
    | some d =>
        rw [show parse_hex_color ((none : Option String).getD "#000000") =
          .ok ⟨0, 0, 0⟩ from by decide]
        exact Or.inr ⟨d, rfl⟩
  · intro params s h1 h2
    unfold fogMeta
    rw [h1, show (some s).getD "4" = s from rfl, h2]
  · intro params s e h1 h2
    unfold fogMeta
    cases hd : parseU8 ((hmGet params "dof").getD "4") with
    | none => intro mt h; exact Except.noConfusion h
    | some d =>
        rw [h1, show (some s).getD "#000000" = s from rfl, h2]
        intro mt h
        exact Except.noConfusion h

/-- C10 witness: the fog-default rules applied at concrete parameter
maps. -/
theorem c10_fog_defaults_witness :
    hmGet ([] : List (String × String)) "dof" = none ∧
    hmGet ([] : List (String × String)) "color" = none ∧
    fogMeta [] = .ok (Meta.fog 4 ⟨0, 0, 0⟩) ∧
    hmGet [("dof", "zz")] "dof" = some "zz" ∧
    parseU8 "zz" = none ∧
    fogMeta [("dof", "zz")] = .error .intParseErr := by
  refine ⟨by decide, by decide, c10_fog_defaults.1 [] (by decide) (by decide),
    by decide, by decide, c10_fog_defaults.2.2.2.1 [("dof", "zz")] "zz" (by decide) (by decide)⟩

/-- C4: `colliding(map, position, is_player)` returns `some symbol` exactly
when the cell resolved at `position` is `Custom symbol` and either the
query is in ray mode (`is_player = false`) or the symbol's tile definition
has `collidable` set — so a ray-mode query stops on any custom tile.
Stated for well-formed maps (every grid symbol has a legend entry, which
`parse_main` guarantees). -/
theorem c4_colliding_characterization (m : Map) (hwf : WFMap m = true) (pos : Vec2)
    (is_player : Bool) (s : Char) :
    m.colliding pos is_player = some s ↔
      (m.main_tiles.get? (m.vec_to_idx pos) = some (Tile.Custom s) ∧
        (is_player = false ∨ ∃ d, hmGet m.custom_tiles s = some d ∧ d.collidable = true)) := by
  unfold Map.colliding
  cases hcell : m.main_tiles.get? (m.vec_to_idx pos) with
  | none => simp
  | some t =>
      cases t with
      | Empty => simp
      | Spawn => simp
      | Custom id =>
          have hmem : Tile.Custom id ∈ m.main_tiles := List.get?_mem hcell
          have hdef : (hmGet m.custom_tiles id).isSome = true := by
            have := (List.all_eq_true.mp hwf) _ hmem
            simpa using this
          obtain ⟨d, hd⟩ := Option.isSome_iff_exists.mp hdef
          dsimp only
          rw [hd]
          simp only [Option.map_some', Option.getD_some]
          by_cases hcond : (!is_player || d.collidable) = true
          · rw [if_pos hcond]
            constructor
            · intro h
              injection h with h
              subst h
              refine ⟨rfl, ?_⟩
              cases is_player with
              | false => exact Or.inl rfl
              | true =>
                  simp only [Bool.not_true, Bool.false_or] at hcond
                  exact Or.inr ⟨d, hd, hcond⟩
            · rintro ⟨h, _⟩
              injection h with h
              injection h with h
              subst h
              rfl
          · rw [if_neg hcond]
            constructor
            · intro h
              exact Option.noConfusion h
            · rintro ⟨h, hor⟩
              injection h with h
              injection h with h
              subst h
              rcases hor with hip | ⟨d', hd', hc'⟩
              · subst hip
                simp at hcond
              · rw [hd] at hd'
                injection hd' with hd'
                subst hd'
                have hc : (!is_player || d.collidable) = true := by
                  rw [hc']
                  simp
                exact absurd hc hcond

/-- C4 witness: the characterization applied to a concrete map — a ray
stops on the non-collidable tile `'A'`, a player query does not. -/
theorem c4_colliding_witness :
    WFMap mapColl = true ∧
    (mapColl.colliding ((0 : ℚ), (0 : ℚ)) false = some 'A' ↔
      (mapColl.main_tiles.get? (mapColl.vec_to_idx ((0 : ℚ), (0 : ℚ))) =
          some (Tile.Custom 'A') ∧
        (false = false ∨ ∃ d, hmGet mapColl.custom_tiles 'A' = some d ∧
          d.collidable = true))) ∧
    mapColl.colliding ((0 : ℚ), (0 : ℚ)) false = some 'A' ∧
    mapColl.colliding ((0 : ℚ), (0 : ℚ)) true = none := by
  exact ⟨by decide, c4_colliding_characterization mapColl (by decide) _ false 'A',
    by decide, by decide⟩

/-- `qtrunc` agrees with `⌊·⌋` on nonnegative arguments. -/
theorem qtrunc_of_nonneg (q : ℚ) (h : 0 ≤ q) : qtrunc q = ⌊q⌋ := by
  unfold qtrunc
  rw [if_neg (not_lt.mpr h)]

/-- `frem · TILE_SIZE` of a nonnegative value lies in `[0, TILE_SIZE)`. -/
theorem frem_nonneg_bounds (a : ℚ) (h : 0 ≤ a) :
    0 ≤ frem a TILE_SIZE ∧ frem a TILE_SIZE < TILE_SIZE := by
  have hT : (0 : ℚ) < TILE_SIZE := by norm_num [TILE_SIZE]
  have hq : (0 : ℚ) ≤ a / TILE_SIZE := div_nonneg h (le_of_lt hT)
  unfold frem
  rw [qtrunc_of_nonneg _ hq]
  have h1 : (⌊a / TILE_SIZE⌋ : ℚ) ≤ a / TILE_SIZE := Int.floor_le _
  have h2 : a / TILE_SIZE < ⌊a / TILE_SIZE⌋ + 1 := Int.lt_floor_add_one _
  have h1' : (⌊a / TILE_SIZE⌋ : ℚ) * TILE_SIZE ≤ a := (le_div_iff₀ hT).mp h1
  have h2' : a < ((⌊a / TILE_SIZE⌋ : ℚ) + 1) * TILE_SIZE := (div_lt_iff₀ hT).mp h2
  constructor <;> nlinarith [h1', h2']

/-- The saturating cast agrees with the floor on nonnegative in-range
values. -/
theorem f32_as_usize_eq_floor (q : ℚ) (h0 : 0 ≤ q) (hle : ⌊q⌋.toNat ≤ USIZE_MAX) :
    f32_as_usize q = ⌊q⌋.toNat := by
  unfold f32_as_usize
  rw [if_neg (not_lt.mpr h0), min_eq_left hle]

/-- A coordinate inside `w` tiles lands in a cell index below `w`. -/
theorem floor_div_tile_lt (x : ℚ) (w : ℕ) (h0 : 0 ≤ x) (hx : x < (w : ℚ) * TILE_SIZE) :
    ⌊x / TILE_SIZE⌋.toNat < w := by
  have hT : (0 : ℚ) < TILE_SIZE := by norm_num [TILE_SIZE]
  have hw : 0 < w := by
    rcases Nat.eq_zero_or_pos w with h | h
    · subst h
      norm_num at hx
      linarith
    · exact h
  have h1 : x / TILE_SIZE < (w : ℚ) := (div_lt_iff₀ hT).mpr hx
  have h2 : ⌊x / TILE_SIZE⌋ < (w : ℤ) := Int.floor_lt.mpr (by exact_mod_cast h1)
  omega

/-- A coordinate at or past `w` tiles lands in a cell index at least `w`. -/
theorem floor_div_tile_ge (x : ℚ) (w : ℕ) (hx : (w : ℚ) * TILE_SIZE ≤ x) :
    (w : ℤ) ≤ ⌊x / TILE_SIZE⌋ := by
  have hT : (0 : ℚ) < TILE_SIZE := by norm_num [TILE_SIZE]
  exact Int.le_floor.mpr (by rw [le_div_iff₀ hT]; exact_mod_cast hx)

/-- In-range characterization of `vec_to_idx` on maps whose cell count
fits `usize` (so the combine cannot wrap): the truncated per-axis cells
combined as `y*width+x`, an index inside the grid. -/
theorem vec_to_idx_in_range (m : Map) (v : Vec2) (hx0 : 0 ≤ v.1)
    (hx : v.1 < (m.width : ℚ) * TILE_SIZE) (hy0 : 0 ≤ v.2)
    (hy : v.2 < (m.height : ℚ) * TILE_SIZE)
    (hwM : m.width ≤ USIZE_MAX) (hhM : m.height ≤ USIZE_MAX)
    (hwh : m.width * m.height ≤ USIZE_MAX) :
    m.vec_to_idx v = ⌊v.2 / TILE_SIZE⌋.toNat * m.width + ⌊v.1 / TILE_SIZE⌋.toNat ∧
      m.vec_to_idx v < m.width * m.height := by
  have hT : (0 : ℚ) ≤ TILE_SIZE := by norm_num [TILE_SIZE]
  have hxb : ⌊v.1 / TILE_SIZE⌋.toNat < m.width := floor_div_tile_lt v.1 m.width hx0 hx
  have hyb : ⌊v.2 / TILE_SIZE⌋.toNat < m.height := floor_div_tile_lt v.2 m.height hy0 hy
  have e1 : f32_as_usize (v.1 / TILE_SIZE) = ⌊v.1 / TILE_SIZE⌋.toNat :=
    f32_as_usize_eq_floor _ (div_nonneg hx0 hT) (le_trans (le_of_lt hxb) hwM)
  have e2 : f32_as_usize (v.2 / TILE_SIZE) = ⌊v.2 / TILE_SIZE⌋.toNat :=
    f32_as_usize_eq_floor _ (div_nonneg hy0 hT) (le_trans (le_of_lt hyb) hhM)
  have hraw : ⌊v.2 / TILE_SIZE⌋.toNat * m.width + ⌊v.1 / TILE_SIZE⌋.toNat <
      m.width * m.height := by
    calc ⌊v.2 / TILE_SIZE⌋.toNat * m.width + ⌊v.1 / TILE_SIZE⌋.toNat
        < ⌊v.2 / TILE_SIZE⌋.toNat * m.width + m.width := Nat.add_lt_add_left hxb _
      _ = (⌊v.2 / TILE_SIZE⌋.toNat + 1) * m.width := by ring
      _ ≤ m.height * m.width := Nat.mul_le_mul_right _ (Nat.succ_le_of_lt hyb)
      _ = m.width * m.height := Nat.mul_comm _ _
  have hM : USIZE_MAX < 2 ^ 64 := by norm_num [USIZE_MAX]
  have heq : m.vec_to_idx v = ⌊v.2 / TILE_SIZE⌋.toNat * m.width + ⌊v.1 / TILE_SIZE⌋.toNat := by
    unfold Map.vec_to_idx
    rw [e1, e2]
    exact Nat.mod_eq_of_lt (lt_trans (lt_of_lt_of_le hraw hwh) hM)
  refine ⟨heq, ?_⟩
  rw [heq]
  exact hraw

/-- A grid-corner position is a fixed point of the roundtrip. -/
theorem idx_vec_fixed (m : Map) (a b : ℕ) (hw : 0 < m.width) (hwM : m.width ≤ USIZE_MAX)
    (ha : a < m.width) (hb : b ≤ USIZE_MAX) (hraw : b * m.width + a < 2 ^ 64) :
    m.idx_to_vec (m.vec_to_idx ((a : ℚ) * TILE_SIZE, (b : ℚ) * TILE_SIZE)) =
      ((a : ℚ) * TILE_SIZE, (b : ℚ) * TILE_SIZE) := by
  have hTne : (TILE_SIZE : ℚ) ≠ 0 := by norm_num [TILE_SIZE]
  have hdiv : ∀ n : ℕ, ((n : ℚ) * TILE_SIZE) / TILE_SIZE = (n : ℚ) := fun n =>
    mul_div_cancel_right₀ _ hTne
  have hfix : ∀ n : ℕ, n ≤ USIZE_MAX →
      f32_as_usize (((n : ℚ) * TILE_SIZE) / TILE_SIZE) = n := by
    intro n hn
    rw [hdiv]
    unfold f32_as_usize
    rw [if_neg (not_lt.mpr (Nat.cast_nonneg n)), Int.floor_natCast]
    have htn : ((n : ℤ)).toNat = n := by omega
    rw [htn]
    exact min_eq_left hn
  have hvidx : m.vec_to_idx ((a : ℚ) * TILE_SIZE, (b : ℚ) * TILE_SIZE) = b * m.width + a := by
    unfold Map.vec_to_idx
    rw [hfix a (le_trans (le_of_lt ha) hwM), hfix b hb]
    exact Nat.mod_eq_of_lt hraw
  rw [hvidx]
  unfold Map.idx_to_vec
  have hmod : (b * m.width + a) % m.width = a := by
    rw [Nat.mul_comm b m.width, Nat.mul_add_mod]
    exact Nat.mod_eq_of_lt ha
  rw [hmod, Nat.add_sub_cancel, Nat.mul_div_cancel b hw]

/-- C5 counterexample: on a 2×2 map, the out-of-range position
`(-10,-10)` (negative coordinates) indexes cell 0 — *inside* the grid —
because the float-to-`usize` cast saturates negatives to 0; and the
out-of-range position `(80,0)` (x past the 64-unit row) indexes cell 2,
also inside the grid, wrapping into the second row.  The claim says every
out-of-range position yields an index outside the valid grid. -/
theorem c5_out_of_range_inside_grid :
    map2x2.vec_to_idx ((-10 : ℚ), (-10 : ℚ)) = 0 ∧
    ((-10 : ℚ) < 0) ∧
    0 < map2x2.width * map2x2.height ∧
    map2x2.vec_to_idx ((80 : ℚ), (0 : ℚ)) = 2 ∧
    (map2x2.width : ℚ) * TILE_SIZE ≤ 80 ∧
    2 < map2x2.width * map2x2.height := by
  exact ⟨by decide, by decide, by decide, by decide, by decide, by decide⟩

/-- C5 (amended): `worldToCellIndex` truncates `position / TILE_SIZE` per
axis — negative values saturating to cell 0 — and combines as
`y*width+x` in `usize` arithmetic.  On maps whose cell count fits
`usize`, in-range positions produce exactly that in-grid index; a
position with `y` at or past the grid's world height produces an
out-of-grid index provided the combine does not overflow `usize`; but
out-of-range positions can land inside the grid — negative coordinates
saturate to row/column 0, `x` past the row wraps into later rows, and an
astronomically large `y` can wrap the `usize` combine itself back into
the grid (last conjunct: `y = 2^68` on the 2×2 map yields index 0) — so
callers cannot rely on out-of-range inputs resolving to "no tile". -/
theorem c5_vec_to_idx_amended (m : Map) (v : Vec2) :
    (0 ≤ v.1 → v.1 < (m.width : ℚ) * TILE_SIZE → 0 ≤ v.2 →
      v.2 < (m.height : ℚ) * TILE_SIZE → m.width ≤ USIZE_MAX → m.height ≤ USIZE_MAX →
      m.width * m.height ≤ USIZE_MAX →
      m.vec_to_idx v = ⌊v.2 / TILE_SIZE⌋.toNat * m.width + ⌊v.1 / TILE_SIZE⌋.toNat ∧
        m.vec_to_idx v < m.width * m.height) ∧
    ((m.height : ℚ) * TILE_SIZE ≤ v.2 → m.height ≤ USIZE_MAX →
      f32_as_usize (v.2 / TILE_SIZE) * m.width + f32_as_usize (v.1 / TILE_SIZE) < 2 ^ 64 →
      m.width * m.height ≤ m.vec_to_idx v) ∧
    map2x2.vec_to_idx ((0 : ℚ), ((2 : ℚ) ^ 68)) = 0 ∧
    0 < map2x2.width * map2x2.height := by
  refine ⟨?_, ?_, by decide, by decide⟩
  · intro hx0 hx hy0 hy hwM hhM hwh
    exact vec_to_idx_in_range m v hx0 hx hy0 hy hwM hhM hwh
  · intro hy hhM hov
    have hy0 : (0 : ℚ) ≤ v.2 :=
      le_trans (mul_nonneg (Nat.cast_nonneg _) (by norm_num [TILE_SIZE])) hy
    have hge : (m.height : ℤ) ≤ ⌊v.2 / TILE_SIZE⌋ := floor_div_tile_ge v.2 m.height hy
    have hge' : m.height ≤ ⌊v.2 / TILE_SIZE⌋.toNat := by omega
    have hcast : m.height ≤ f32_as_usize (v.2 / TILE_SIZE) := by
      unfold f32_as_usize
      rw [if_neg (not_lt.mpr (div_nonneg hy0 (by norm_num [TILE_SIZE])))]
      exact le_min hge' hhM
    unfold Map.vec_to_idx
    rw [Nat.mod_eq_of_lt hov]
    calc m.width * m.height = m.height * m.width := Nat.mul_comm _ _
      _ ≤ f32_as_usize (v.2 / TILE_SIZE) * m.width := Nat.mul_le_mul_right _ hcast
      _ ≤ _ := Nat.le_add_right _ _

/-- C5 witness: the amended characterization at concrete inputs — the
in-range position `(33,40)` maps to cell index `1*2+1 = 3` inside the
2×2 grid, and `(0,64)` (y past the grid) maps outside it. -/
theorem c5_vec_to_idx_witness :
    (map2x2.vec_to_idx ((33 : ℚ), (40 : ℚ)) =
        ⌊(40 : ℚ) / TILE_SIZE⌋.toNat * map2x2.width + ⌊(33 : ℚ) / TILE_SIZE⌋.toNat ∧
      map2x2.vec_to_idx ((33 : ℚ), (40 : ℚ)) < map2x2.width * map2x2.height) ∧
    map2x2.width * map2x2.height ≤ map2x2.vec_to_idx ((0 : ℚ), (64 : ℚ)) := by
  refine ⟨(c5_vec_to_idx_amended map2x2 ((33 : ℚ), (40 : ℚ))).1 (by decide) (by decide)
    (by decide) (by decide) (by decide) (by decide) (by decide),
    (c5_vec_to_idx_amended map2x2 ((0 : ℚ), (64 : ℚ))).2.1 (by decide) (by decide) (by decide)⟩

/-- C6 counterexample: on a 2×2 map the out-of-range position `(-10,-10)`
round-trips to `(0,0)`, while rounding each axis down to the nearest
TILE_SIZE-aligned corner gives `(-32,-32)` — so the claimed identity
fails for all positions. -/
theorem c6_negative_roundtrip_fails :
    map2x2.idx_to_vec (map2x2.vec_to_idx ((-10 : ℚ), (-10 : ℚ))) = ((0 : ℚ), (0 : ℚ)) ∧
    (TILE_SIZE * (⌊(-10 : ℚ) / TILE_SIZE⌋ : ℚ), TILE_SIZE * (⌊(-10 : ℚ) / TILE_SIZE⌋ : ℚ)) =
      ((-32 : ℚ), (-32 : ℚ)) ∧
    ((0 : ℚ), (0 : ℚ)) ≠ ((-32 : ℚ), (-32 : ℚ)) := by
  exact ⟨by decide, by decide, by decide⟩

/-- C6 (amended): for positions inside the map's world bounds
(`0 ≤ x < width*TILE_SIZE`, `0 ≤ y < height*TILE_SIZE`, nonempty grid,
cell count fitting `usize` — `loaded_size_bound` shows the latter
excludes no loadable map, since a real cell vector cannot outgrow
`usize`), `cellIndexToWorld (worldToCellIndex p)` rounds `p` down per
axis to the nearest TILE_SIZE-aligned corner, and applying the
composition again returns the same value. -/
theorem c6_roundtrip_amended (m : Map) (p : Vec2) (hw : 0 < m.width)
    (hwM : m.width ≤ USIZE_MAX) (hhM : m.height ≤ USIZE_MAX)
    (hwh : m.width * m.height ≤ USIZE_MAX)
    (hx0 : 0 ≤ p.1) (hx : p.1 < (m.width : ℚ) * TILE_SIZE)
    (hy0 : 0 ≤ p.2) (hy : p.2 < (m.height : ℚ) * TILE_SIZE) :
    m.idx_to_vec (m.vec_to_idx p) =
      (TILE_SIZE * (⌊p.1 / TILE_SIZE⌋ : ℚ), TILE_SIZE * (⌊p.2 / TILE_SIZE⌋ : ℚ)) ∧
    m.idx_to_vec (m.vec_to_idx (m.idx_to_vec (m.vec_to_idx p))) =
      m.idx_to_vec (m.vec_to_idx p) := by
  have hT : (0 : ℚ) ≤ TILE_SIZE := by norm_num [TILE_SIZE]
  obtain ⟨hidx, _⟩ := vec_to_idx_in_range m p hx0 hx hy0 hy hwM hhM hwh
  have hxc : ⌊p.1 / TILE_SIZE⌋.toNat < m.width := floor_div_tile_lt p.1 m.width hx0 hx
  have hyc : ⌊p.2 / TILE_SIZE⌋.toNat < m.height := floor_div_tile_lt p.2 m.height hy0 hy
  have hxfl : ((⌊p.1 / TILE_SIZE⌋.toNat : ℕ) : ℚ) = (⌊p.1 / TILE_SIZE⌋ : ℚ) := by
    have h0 : (0 : ℤ) ≤ ⌊p.1 / TILE_SIZE⌋ := Int.floor_nonneg.mpr (div_nonneg hx0 hT)
    exact_mod_cast congrArg (fun t : ℤ => (t : ℚ)) (Int.toNat_of_nonneg h0)
  have hyfl : ((⌊p.2 / TILE_SIZE⌋.toNat : ℕ) : ℚ) = (⌊p.2 / TILE_SIZE⌋ : ℚ) := by
    have h0 : (0 : ℤ) ≤ ⌊p.2 / TILE_SIZE⌋ := Int.floor_nonneg.mpr (div_nonneg hy0 hT)
    exact_mod_cast congrArg (fun t : ℤ => (t : ℚ)) (Int.toNat_of_nonneg h0)
  have hfirst : m.idx_to_vec (m.vec_to_idx p) =
      ((⌊p.1 / TILE_SIZE⌋.toNat : ℚ) * TILE_SIZE, (⌊p.2 / TILE_SIZE⌋.toNat : ℚ) * TILE_SIZE) := by
    rw [hidx]
    unfold Map.idx_to_vec
    have hmod : (⌊p.2 / TILE_SIZE⌋.toNat * m.width + ⌊p.1 / TILE_SIZE⌋.toNat) % m.width =
        ⌊p.1 / TILE_SIZE⌋.toNat := by
      rw [Nat.mul_comm ⌊p.2 / TILE_SIZE⌋.toNat m.width, Nat.mul_add_mod]
      exact Nat.mod_eq_of_lt hxc
    rw [hmod, Nat.add_sub_cancel, Nat.mul_div_cancel _ hw]
  constructor
  · rw [hfirst, hxfl, hyfl, mul_comm TILE_SIZE, mul_comm TILE_SIZE]
  · rw [hfirst]
    have hraw : ⌊p.2 / TILE_SIZE⌋.toNat * m.width + ⌊p.1 / TILE_SIZE⌋.toNat < 2 ^ 64 := by
      have h1 : ⌊p.2 / TILE_SIZE⌋.toNat * m.width + ⌊p.1 / TILE_SIZE⌋.toNat <
          m.width * m.height := by
        calc ⌊p.2 / TILE_SIZE⌋.toNat * m.width + ⌊p.1 / TILE_SIZE⌋.toNat
            < ⌊p.2 / TILE_SIZE⌋.toNat * m.width + m.width := Nat.add_lt_add_left hxc _
          _ = (⌊p.2 / TILE_SIZE⌋.toNat + 1) * m.width := by ring
          _ ≤ m.height * m.width := Nat.mul_le_mul_right _ (Nat.succ_le_of_lt hyc)
          _ = m.width * m.height := Nat.mul_comm _ _
      have hM : USIZE_MAX < 2 ^ 64 := by norm_num [USIZE_MAX]
      exact lt_trans (lt_of_lt_of_le h1 hwh) hM
    rw [idx_vec_fixed m _ _ hw hwM hxc (le_trans (le_of_lt hyc) hhM) hraw]

/-- C6 witness: the amended roundtrip at the concrete in-range position
`(33,40)` of the 2×2 map. -/
theorem c6_roundtrip_witness :
    map2x2.idx_to_vec (map2x2.vec_to_idx ((33 : ℚ), (40 : ℚ))) =
      (TILE_SIZE * (⌊(33 : ℚ) / TILE_SIZE⌋ : ℚ), TILE_SIZE * (⌊(40 : ℚ) / TILE_SIZE⌋ : ℚ)) ∧
    map2x2.idx_to_vec
        (map2x2.vec_to_idx (map2x2.idx_to_vec (map2x2.vec_to_idx ((33 : ℚ), (40 : ℚ))))) =
      map2x2.idx_to_vec (map2x2.vec_to_idx ((33 : ℚ), (40 : ℚ))) :=
  c6_roundtrip_amended map2x2 ((33 : ℚ), (40 : ℚ)) (by decide) (by decide) (by decide)
    (by decide) (by decide) (by decide) (by decide) (by decide)

/-- Rows produced by `parseRow` only contain `Custom` tiles with a legend
entry. -/
theorem parseRow_wf (legend : List (Char × CustomTile)) :
    ∀ (cs : List Char) (row : List Tile), parseRow legend cs = .ok row →
      ∀ c : Char, Tile.Custom c ∈ row → (hmGet legend c).isSome = true := by
  intro cs
  induction cs with
  | nil =>
      intro row h c hc
      injection h with h
      subst h
      simp at hc
  | cons a rest ih =>
      intro row h c hc
      unfold parseRow at h
      by_cases ha1 : a = ' '
      · rw [if_pos ha1] at h
        cases hrec : parseRow legend rest with
        | error e => rw [hrec] at h; exact Except.noConfusion h
        | ok tiles =>
            rw [hrec] at h
            injection h with h
            subst h
            rcases List.mem_cons.mp hc with h' | h'
            · exact Tile.noConfusion h'
            · exact ih tiles hrec c h'
      · rw [if_neg ha1] at h
        by_cases ha2 : a = '*'
        · rw [if_pos ha2] at h
          cases hrec : parseRow legend rest with
          | error e => rw [hrec] at h; exact Except.noConfusion h
          | ok tiles =>
              rw [hrec] at h
              injection h with h
              subst h
              rcases List.mem_cons.mp hc with h' | h'
              · exact Tile.noConfusion h'
              · exact ih tiles hrec c h'
        · rw [if_neg ha2] at h
          by_cases ha3 : (hmGet legend a).isSome = true
          · rw [if_pos ha3] at h
            cases hrec : parseRow legend rest with
            | error e => rw [hrec] at h; exact Except.noConfusion h
            | ok tiles =>
                rw [hrec] at h
                injection h with h
                subst h
                rcases List.mem_cons.mp hc with h' | h'
                · injection h' with h'
                  subst h'
                  exact ha3
                · exact ih tiles hrec c h'
          · rw [if_neg ha3] at h
            exact Except.noConfusion h

/-- `parse_grid` preserves the legend-entry invariant of the accumulated
tile list. -/
theorem parse_grid_wf (legend : List (Char × CustomTile)) :
    ∀ (ls : List String) (height : ℕ) (tiles : List Tile) (h' : ℕ) (t' : List Tile)
      (rest : List String),
      (∀ c : Char, Tile.Custom c ∈ tiles → (hmGet legend c).isSome = true) →
      parse_grid legend height tiles ls = .ok (h', t', rest) →
      ∀ c : Char, Tile.Custom c ∈ t' → (hmGet legend c).isSome = true := by
  intro ls
  induction ls with
  | nil =>
      intro height tiles h' t' rest hinv h c hc
      injection h with h
      injection h with h1 h2
      injection h2 with h2 h3
      subst h2
      exact hinv c hc
  | cons line rest0 ih =>
      intro height tiles h' t' rest hinv h c hc
      unfold parse_grid at h
      by_cases hline : line = ""
      · rw [if_pos hline] at h
        injection h with h
        injection h with h1 h2
        injection h2 with h2 h3
        subst h2
        exact hinv c hc
      · rw [if_neg hline] at h
        cases hrow : parseRow legend line.toList with
        | error e => rw [hrow] at h; exact Except.noConfusion h
        | ok row =>
            rw [hrow] at h
            refine ih _ _ _ _ _ ?_ h c hc
            intro c' hc'
            rcases List.mem_append.mp hc' with h' | h'
            · exact hinv c' h'
            · exact parseRow_wf legend _ _ hrow c' h'

/-- `parse_main` only produces well-formed maps. -/
theorem parse_main_wf (m m' : Map) (ls rest : List String)
    (h : parse_main m ls = .ok (m', rest)) : WFMap m' = true := by
  unfold parse_main at h
  cases hgrid : parse_grid (parse_legend [] ls).1 0 [] (parse_legend [] ls).2 with
  | error e =>
      rw [hgrid] at h
      exact Except.noConfusion h
  | ok res =>
      obtain ⟨height, tiles, rest2⟩ := res
      rw [hgrid] at h
      dsimp only at h
      by_cases hh : height = 0
      · rw [if_pos hh] at h
        exact Except.noConfusion h
      · rw [if_neg hh] at h
        injection h with h
        injection h with h1 h2
        subst h1
        have hinv : ∀ c : Char, Tile.Custom c ∈ tiles →
            (hmGet (parse_legend [] ls).1 c).isSome = true :=
          parse_grid_wf _ _ _ _ _ _ _ (by intro c hc; simp at hc) hgrid
        unfold WFMap
        rw [List.all_eq_true]
        intro t ht
        cases t with
        | Empty => rfl
        | Spawn => rfl
        | Custom c => simpa using hinv c ht

/-- `parse_meta` never touches the grid dimensions, the cells or the
legend. -/
theorem parse_meta_preserves (ls : List String) :
    ∀ (m m' : Map) (rest : List String), parse_meta m ls = .ok (m', rest) →
      m'.width = m.width ∧ m'.height = m.height ∧
        m'.main_tiles = m.main_tiles ∧ m'.custom_tiles = m.custom_tiles := by
  induction ls with
  | nil =>
      intro m m' rest h
      injection h with h
      injection h with h1 h2
      subst h1
      exact ⟨rfl, rfl, rfl, rfl⟩
  | cons line rest0 ih =>
      intro m m' rest h
      unfold parse_meta at h
      by_cases hline : line = ""
      · rw [if_pos hline] at h
        injection h with h
        injection h with h1 h2
        subst h1
        exact ⟨rfl, rfl, rfl, rfl⟩
      · rw [if_neg hline] at h
        cases hps : ((splitComma line).drop 1).mapM (fun p => splitOnce p '=') with
        | none => rw [hps] at h; exact Except.noConfusion h
        | some ps =>
            rw [hps] at h
            dsimp only at h
            by_cases hdir : (splitComma line).headD "" = "fog"
            · rw [if_pos hdir] at h
              cases hfog : fogMeta (hmOfList ps) with
              | error e => rw [hfog] at h; exact Except.noConfusion h
              | ok mt =>
                  rw [hfog] at h
                  dsimp only at h
                  exact ih { m with meta := hsInsert m.meta mt } m' rest h
            · rw [if_neg hdir] at h
              exact Except.noConfusion h

/-- The `load` directive loop preserves well-formedness. -/
theorem loadGo_wf (fuel : ℕ) :
    ∀ (ls : List String) (m m' : Map), WFMap m = true → loadGo m fuel ls = .ok m' →
      WFMap m' = true := by
  induction fuel with
  | zero =>
      intro ls m m' hm h
      cases ls with
      | nil =>
          injection h with h
          subst h
          exact hm
      | cons line rest => exact Except.noConfusion h
  | succ n ih =>
      intro ls m m' hm h
      cases ls with
      | nil =>
          injection h with h
          subst h
          exact hm
      | cons line rest =>
          unfold loadGo at h
          by_cases hmeta : line = "!!!!META"
          · rw [if_pos hmeta] at h
            cases hp : parse_meta m rest with
            | error e => rw [hp] at h; exact Except.noConfusion h
            | ok res =>
                obtain ⟨m1, rest'⟩ := res
                rw [hp] at h
                obtain ⟨_, _, ht, hc⟩ := parse_meta_preserves rest m m1 rest' hp
                refine ih rest' m1 m' ?_ h
                unfold WFMap at hm ⊢
                rw [ht, hc]
                exact hm
          · rw [if_neg hmeta] at h
            by_cases hmain : line = "!!!!MAIN"
            · rw [if_pos hmain] at h
              cases hp : parse_main m rest with
              | error e => rw [hp] at h; exact Except.noConfusion h
              | ok res =>
                  obtain ⟨m1, rest'⟩ := res
                  rw [hp] at h
                  exact ih rest' m1 m' (parse_main_wf m m1 rest rest' hp) h
            · rw [if_neg hmain] at h
              exact Except.noConfusion h

/-- Every successfully loaded map is well-formed: each `Custom` grid cell
has a legend entry (this discharges the hypothesis of the `colliding`
characterization for all maps the program actually constructs). -/
theorem load_wf (ls : List String) (m : Map) (h : load ls = .ok m) : WFMap m = true :=
  loadGo_wf ls.length ls emptyMap m rfl h

/-- `parse_main` only produces maps whose `width * height` is bounded by
the cell count (`width = tiles.len() / height`). -/
theorem parse_main_size (m m' : Map) (ls rest : List String)
    (h : parse_main m ls = .ok (m', rest)) :
    m'.width * m'.height ≤ m'.main_tiles.length := by
  unfold parse_main at h
  cases hgrid : parse_grid (parse_legend [] ls).1 0 [] (parse_legend [] ls).2 with
  | error e =>
      rw [hgrid] at h
      exact Except.noConfusion h
  | ok res =>
      obtain ⟨height, tiles, rest2⟩ := res
      rw [hgrid] at h
      dsimp only at h
      by_cases hh : height = 0
      · rw [if_pos hh] at h
        exact Except.noConfusion h
      · rw [if_neg hh] at h
        injection h with h
        injection h with h1 h2
        subst h1
        exact Nat.div_mul_le_self tiles.length height

/-- The `load` directive loop preserves the cell-count bound. -/
theorem loadGo_size (fuel : ℕ) :
    ∀ (ls : List String) (m m' : Map), m.width * m.height ≤ m.main_tiles.length →
      loadGo m fuel ls = .ok m' → m'.width * m'.height ≤ m'.main_tiles.length := by
  induction fuel with
  | zero =>
      intro ls m m' hm h
      cases ls with
      | nil =>
          injection h with h
          subst h
          exact hm
      | cons line rest => exact Except.noConfusion h
  | succ n ih =>
      intro ls m m' hm h
      cases ls with
      | nil =>
          injection h with h
          subst h
          exact hm
      | cons line rest =>
          unfold loadGo at h
          by_cases hmeta : line = "!!!!META"
          · rw [if_pos hmeta] at h
            cases hp : parse_meta m rest with
            | error e => rw [hp] at h; exact Except.noConfusion h
            | ok res =>
                obtain ⟨m1, rest'⟩ := res
                rw [hp] at h
                obtain ⟨hwidth, hheight, ht, _⟩ := parse_meta_preserves rest m m1 rest' hp
                refine ih rest' m1 m' ?_ h
                rw [hwidth, hheight, ht]
                exact hm
          · rw [if_neg hmeta] at h
            by_cases hmain : line = "!!!!MAIN"
            · rw [if_pos hmain] at h
              cases hp : parse_main m rest with
              | error e => rw [hp] at h; exact Except.noConfusion h
              | ok res =>
                  obtain ⟨m1, rest'⟩ := res
                  rw [hp] at h
                  exact ih rest' m1 m' (parse_main_size m m1 rest rest' hp) h
            · rw [if_neg hmain] at h
              exact Except.noConfusion h

/-- Every successfully loaded map's `width * height` is bounded by its
cell count — so, since a real `Vec` of cells cannot outgrow `usize`, the
no-overflow hypotheses `width * height ≤ USIZE_MAX` used below exclude no
map the program can construct. -/
theorem loaded_size_bound (ls : List String) (m : Map) (h : load ls = .ok m) :
    m.width * m.height ≤ m.main_tiles.length :=
  loadGo_size ls.length ls emptyMap m (Nat.le_refl 0) h

/-- The interleaved DOF loop's horizontal component ignores the vertical
state. -/
theorem castLoop_fst (m : Map) (pos : Vec2) (fuel : ℕ)
    (xs ys : Option SearchRay × Option Hit) :
    (castLoop m pos fuel xs ys).1 = hIter m pos fuel xs := by
  induction fuel generalizing xs ys with
  | zero => rfl
  | succ n ih => exact ih _ _

/-- The interleaved DOF loop's vertical component ignores the horizontal
state. -/
theorem castLoop_snd (m : Map) (pos : Vec2) (fuel : ℕ)
    (xs ys : Option SearchRay × Option Hit) :
    (castLoop m pos fuel xs ys).2 = vIter m pos fuel ys := by
  induction fuel generalizing xs ys with
  | zero => rfl
  | succ n ih => exact ih _ _

/-- Once the horizontal search has recorded a hit it never changes. -/
theorem hIter_frozen (m : Map) (pos : Vec2) (fuel : ℕ) :
    ∀ (xs : Option SearchRay) (r : Hit), hIter m pos fuel (xs, some r) = some r := by
  induction fuel with
  | zero => intro xs r; rfl
  | succ n ih =>
      intro xs r
      cases xs with
      | none => exact ih none r
      | some s => exact ih (some s) r

/-- Once the vertical search has recorded a hit it never changes. -/
theorem vIter_frozen (m : Map) (pos : Vec2) (fuel : ℕ) :
    ∀ (ys : Option SearchRay) (r : Hit), vIter m pos fuel (ys, some r) = some r := by
  induction fuel with
  | zero => intro ys r; rfl
  | succ n ih =>
      intro ys r
      cases ys with
      | none => exact ih none r
      | some s => exact ih (some s) r

/-- Every hit the horizontal search records comes from a `colliding` query
at some grid-line crossing `ray + n·step`, is never on a `half_width`
tile, and is offset by exactly a quarter step when the tile is
`half_height`. -/
theorem hIter_spec (m : Map) (pos : Vec2) (fuel : ℕ) :
    ∀ (s : SearchRay) (off : Vec2) (c : Cardinal) (t : Char),
      hIter m pos fuel (some s, none) = some (off, c, t) →
      c = s.cardinal ∧
      (hmIndexD m.custom_tiles t).half_width = false ∧
      ∃ n, n < fuel ∧
        m.colliding (pos + (s.ray + (n : ℚ) • s.step)) false = some t ∧
        off = s.ray + (n : ℚ) • s.step +
          (if (hmIndexD m.custom_tiles t).half_height then (1/4 : ℚ) • s.step
           else ((0 : ℚ), (0 : ℚ))) := by
  induction fuel with
  | zero =>
      intro s off c t h
      simp [hIter] at h
  | succ n ih =>
      intro s off c t h
      rw [show hIter m pos (n + 1) (some s, none) =
        hIter m pos n (hStep m pos (some s, none)) from rfl] at h
      cases hcol : m.colliding (pos + s.ray) false with
      | none =>
          have hstep : hStep m pos (some s, none) =
              (some { s with ray := s.ray + s.step }, none) := by
            simp [hStep, hcol]
          rw [hstep] at h
          obtain ⟨hc, hhw, n', hn', hcoll, hoff⟩ := ih _ _ _ _ h
          refine ⟨hc, hhw, n' + 1, by omega, ?_, ?_⟩
          · rw [show s.ray + ((n' + 1 : ℕ) : ℚ) • s.step =
              (s.ray + s.step) + ((n' : ℕ) : ℚ) • s.step from by
                push_cast
                rw [add_smul, one_smul]
                abel]
            exact hcoll
          · rw [show s.ray + ((n' + 1 : ℕ) : ℚ) • s.step =
              (s.ray + s.step) + ((n' : ℕ) : ℚ) • s.step from by
                push_cast
                rw [add_smul, one_smul]
                abel]
            exact hoff
      | some tile =>
          cases hfw : (hmIndexD m.custom_tiles tile).half_width with
          | true =>
              have hstep : hStep m pos (some s, none) =
                  (some { s with ray := s.ray + s.step }, none) := by
                simp [hStep, hcol, hfw]
              rw [hstep] at h
              obtain ⟨hc, hhw, n', hn', hcoll, hoff⟩ := ih _ _ _ _ h
              refine ⟨hc, hhw, n' + 1, by omega, ?_, ?_⟩
              · rw [show s.ray + ((n' + 1 : ℕ) : ℚ) • s.step =
                  (s.ray + s.step) + ((n' : ℕ) : ℚ) • s.step from by
                    push_cast
                    rw [add_smul, one_smul]
                    abel]
                exact hcoll
              · rw [show s.ray + ((n' + 1 : ℕ) : ℚ) • s.step =
                  (s.ray + s.step) + ((n' : ℕ) : ℚ) • s.step from by
                    push_cast
                    rw [add_smul, one_smul]
                    abel]
                exact hoff
          | false =>
              have hstep : hStep m pos (some s, none) =
                  (some { s with ray := s.ray + s.step },
                    some (s.ray +
                      (if (hmIndexD m.custom_tiles tile).half_height
                       then (1/4 : ℚ) • s.step else ((0 : ℚ), (0 : ℚ))),
                      s.cardinal, tile)) := by
                simp [hStep, hcol, hfw]
              rw [hstep, hIter_frozen] at h
              injection h with h
              injection h with hv hrest
              injection hrest with hcard htile
              subst hv
              subst hcard
              subst htile
              refine ⟨rfl, hfw, 0, by omega, ?_, ?_⟩
              · rw [Nat.cast_zero, zero_smul, add_zero]
                exact hcol
              · rw [Nat.cast_zero, zero_smul, add_zero]

/-- Every hit the vertical search records comes from a `colliding` query
at some grid-line crossing, is never on a `half_height` tile, and is
offset by exactly a quarter step when the tile is `half_width`. -/
theorem vIter_spec (m : Map) (pos : Vec2) (fuel : ℕ) :
    ∀ (s : SearchRay) (off : Vec2) (c : Cardinal) (t : Char),
      vIter m pos fuel (some s, none) = some (off, c, t) →
      c = s.cardinal ∧
      (hmIndexD m.custom_tiles t).half_height = false ∧
      ∃ n, n < fuel ∧
        m.colliding (pos + (s.ray + (n : ℚ) • s.step)) false = some t ∧
        off = s.ray + (n : ℚ) • s.step +
          (if (hmIndexD m.custom_tiles t).half_width then (1/4 : ℚ) • s.step
           else ((0 : ℚ), (0 : ℚ))) := by
  induction fuel with
  | zero =>
      intro s off c t h
      simp [vIter] at h
  | succ n ih =>
      intro s off c t h
      rw [show vIter m pos (n + 1) (some s, none) =
        vIter m pos n (vStep m pos (some s, none)) from rfl] at h
      cases hcol : m.colliding (pos + s.ray) false with
      | none =>
          have hstep : vStep m pos (some s, none) =
              (some { s with ray := s.ray + s.step }, none) := by
            simp [vStep, hcol]
          rw [hstep] at h
          obtain ⟨hc, hhh, n', hn', hcoll, hoff⟩ := ih _ _ _ _ h
          refine ⟨hc, hhh, n' + 1, by omega, ?_, ?_⟩
          · rw [show s.ray + ((n' + 1 : ℕ) : ℚ) • s.step =
              (s.ray + s.step) + ((n' : ℕ) : ℚ) • s.step from by
                push_cast
                rw [add_smul, one_smul]
                abel]
            exact hcoll
          · rw [show s.ray + ((n' + 1 : ℕ) : ℚ) • s.step =
              (s.ray + s.step) + ((n' : ℕ) : ℚ) • s.step from by
                push_cast
                rw [add_smul, one_smul]
                abel]
            exact hoff
      | some tile =>
          cases hfh : (hmIndexD m.custom_tiles tile).half_height with
          | true =>
              have hstep : vStep m pos (some s, none) =
                  (some { s with ray := s.ray + s.step }, none) := by
                simp [vStep, hcol, hfh]
              rw [hstep] at h
              obtain ⟨hc, hhh, n', hn', hcoll, hoff⟩ := ih _ _ _ _ h
              refine ⟨hc, hhh, n' + 1, by omega, ?_, ?_⟩
              · rw [show s.ray + ((n' + 1 : ℕ) : ℚ) • s.step =
                  (s.ray + s.step) + ((n' : ℕ) : ℚ) • s.step from by
                    push_cast
                    rw [add_smul, one_smul]
                    abel]
                exact hcoll
              · rw [show s.ray + ((n' + 1 : ℕ) : ℚ) • s.step =
                  (s.ray + s.step) + ((n' : ℕ) : ℚ) • s.step from by
                    push_cast
                    rw [add_smul, one_smul]
                    abel]
                exact hoff
          | false =>
              have hstep : vStep m pos (some s, none) =
                  (some { s with ray := s.ray + s.step },
                    some (s.ray +
                      (if (hmIndexD m.custom_tiles tile).half_width
                       then (1/4 : ℚ) • s.step else ((0 : ℚ), (0 : ℚ))),
                      s.cardinal, tile)) := by
                simp [vStep, hcol, hfh]
              rw [hstep, vIter_frozen] at h
              injection h with h
              injection h with hv hrest
              injection hrest with hcard htile
              subst hv
              subst hcard
              subst htile
              refine ⟨rfl, hfh, 0, by omega, ?_, ?_⟩
              · rw [Nat.cast_zero, zero_smul, add_zero]
                exact hcol
              · rw [Nat.cast_zero, zero_smul, add_zero]

/-- C7: over the DOF-bounded lockstep loop, the horizontal search never
accepts a `half_width` tile and the vertical search never accepts a
`half_height` tile; every accepted hit sits at a grid-line crossing
`ray + n·step` found by a ray-mode `colliding` query, and carries exactly
a quarter-step nudge when the tile bears the complementary half flag. -/
theorem c7_half_flag_handling (m : Map) (pos : Vec2) :
    (∀ (sx : SearchRay) (ys : Option SearchRay × Option Hit) (off : Vec2)
        (c : Cardinal) (t : Char),
      (castLoop m pos DOF (some sx, none) ys).1 = some (off, c, t) →
      (hmIndexD m.custom_tiles t).half_width = false ∧
      ∃ n, n < DOF ∧ m.colliding (pos + (sx.ray + (n : ℚ) • sx.step)) false = some t ∧
        off = sx.ray + (n : ℚ) • sx.step +
          (if (hmIndexD m.custom_tiles t).half_height then (1/4 : ℚ) • sx.step
           else ((0 : ℚ), (0 : ℚ)))) ∧
    (∀ (sy : SearchRay) (xs : Option SearchRay × Option Hit) (off : Vec2)
        (c : Cardinal) (t : Char),
      (castLoop m pos DOF xs (some sy, none)).2 = some (off, c, t) →
      (hmIndexD m.custom_tiles t).half_height = false ∧
      ∃ n, n < DOF ∧ m.colliding (pos + (sy.ray + (n : ℚ) • sy.step)) false = some t ∧
        off = sy.ray + (n : ℚ) • sy.step +
          (if (hmIndexD m.custom_tiles t).half_width then (1/4 : ℚ) • sy.step
           else ((0 : ℚ), (0 : ℚ)))) := by
  constructor
  · intro sx ys off c t h
    rw [castLoop_fst] at h
    obtain ⟨_, hhw, hex⟩ := hIter_spec m pos DOF sx off c t h
    exact ⟨hhw, hex⟩
  · intro sy xs off c t h
    rw [castLoop_snd] at h
    obtain ⟨_, hhh, hex⟩ := vIter_spec m pos DOF sy off c t h
    exact ⟨hhh, hex⟩

/-- C7 witness: concrete quarter-step nudges — the horizontal search over
`mapHalfH` accepts the `half_height` tile `'H'` at `(0,40) = (0,32) +
(0,32)/4`, and the vertical search over `mapHalfV` accepts the
`half_width` tile `'V'` at `(40,0) = (32,0) + (32,0)/4`. -/
theorem c7_half_flag_witness :
    ((castLoop mapHalfH ((0 : ℚ), (0 : ℚ)) DOF (some sxDown, none) (none, none)).1 =
      some (((0 : ℚ), (40 : ℚ)), Cardinal.North, 'H')) ∧
    ((hmIndexD mapHalfH.custom_tiles 'H').half_width = false ∧
      ∃ n, n < DOF ∧
        mapHalfH.colliding (((0 : ℚ), (0 : ℚ)) + (sxDown.ray + (n : ℚ) • sxDown.step)) false =
          some 'H' ∧
        ((0 : ℚ), (40 : ℚ)) = sxDown.ray + (n : ℚ) • sxDown.step +
          (if (hmIndexD mapHalfH.custom_tiles 'H').half_height then (1/4 : ℚ) • sxDown.step
           else ((0 : ℚ), (0 : ℚ)))) ∧
    ((castLoop mapHalfV ((0 : ℚ), (0 : ℚ)) DOF (none, none) (some syRight, none)).2 =
      some (((40 : ℚ), (0 : ℚ)), Cardinal.West, 'V')) ∧
    ((hmIndexD mapHalfV.custom_tiles 'V').half_height = false ∧
      ∃ n, n < DOF ∧
        mapHalfV.colliding (((0 : ℚ), (0 : ℚ)) + (syRight.ray + (n : ℚ) • syRight.step)) false =
          some 'V' ∧
        ((40 : ℚ), (0 : ℚ)) = syRight.ray + (n : ℚ) • syRight.step +
          (if (hmIndexD mapHalfV.custom_tiles 'V').half_width then (1/4 : ℚ) • syRight.step
           else ((0 : ℚ), (0 : ℚ)))) := by
  refine ⟨by decide, ?_, by decide, ?_⟩
  · exact (c7_half_flag_handling mapHalfH ((0 : ℚ), (0 : ℚ))).1 sxDown (none, none)
      ((0 : ℚ), (40 : ℚ)) Cardinal.North 'H' (by decide)
  · exact (c7_half_flag_handling mapHalfV ((0 : ℚ), (0 : ℚ))).2 syRight (none, none)
      ((40 : ℚ), (0 : ℚ)) Cardinal.West 'V' (by decide)

/-- C8 counterexample: on `mapNorthWall`, the straight-down column is a
genuine (non-sentinel) hit on the North face with
`hit_where = TILE_SIZE - (64 % TILE_SIZE) = TILE_SIZE = 32`, which is not
in the claimed half-open range `0 ≤ u < TILE_SIZE`. -/
theorem c8_hit_where_at_tile_size :
    castColumn mapNorthWall ((0 : ℚ), (0 : ℚ)) ((0 : ℚ), (1 : ℚ)) =
      ⟨some ((0 : ℚ), (32 : ℚ)), Cardinal.North, some TILE_SIZE, 'A'⟩ ∧
    ¬ (TILE_SIZE < TILE_SIZE) := by
  exact ⟨by decide, by decide⟩

/-- C8 (amended): `hit_where` is computed from the hit point's world
coordinate modulo TILE_SIZE — x for North/South faces, y for East/West —
and, when that coordinate is nonnegative, lies in `[0, TILE_SIZE)` for
South/West faces but in the half-open range `(0, TILE_SIZE]` for
North/East faces (reaching `TILE_SIZE` exactly when the coordinate is a
multiple of TILE_SIZE). -/
theorem c8_hit_where_range (m : Map) (pos angle_vec v : Vec2) (c : Cardinal) :
    ((castColumn m pos angle_vec).vec = some v →
      (castColumn m pos angle_vec).hit_where =
        some (hitWhere pos v (castColumn m pos angle_vec).face_direction)) ∧
    (0 ≤ hitCoord pos v c →
      ((c = Cardinal.South ∨ c = Cardinal.West) →
        0 ≤ hitWhere pos v c ∧ hitWhere pos v c < TILE_SIZE) ∧
      ((c = Cardinal.North ∨ c = Cardinal.East) →
        0 < hitWhere pos v c ∧ hitWhere pos v c ≤ TILE_SIZE)) := by
  constructor
  · intro h
    simp only [castColumn] at h ⊢
    rw [h]
    rfl
  · intro h0
    constructor
    · rintro (rfl | rfl)
      · simp only [hitCoord] at h0
        simpa [hitWhere] using frem_nonneg_bounds _ h0
      · simp only [hitCoord] at h0
        simpa [hitWhere] using frem_nonneg_bounds _ h0
    · rintro (rfl | rfl)
      · simp only [hitCoord] at h0
        obtain ⟨hb1, hb2⟩ := frem_nonneg_bounds (v.1 + pos.1) h0
        simp only [hitWhere]
        constructor <;> linarith
      · simp only [hitCoord] at h0
        obtain ⟨hb1, hb2⟩ := frem_nonneg_bounds (v.2 + pos.2) h0
        simp only [hitWhere]
        constructor <;> linarith

/-- C8 witness: the amended bounds at the concrete hit of
`c8_hit_where_at_tile_size`, on the South and North faces. -/
theorem c8_hit_where_witness :
    (castColumn mapNorthWall ((0 : ℚ), (0 : ℚ)) ((0 : ℚ), (1 : ℚ))).vec =
      some ((0 : ℚ), (32 : ℚ)) ∧
    (castColumn mapNorthWall ((0 : ℚ), (0 : ℚ)) ((0 : ℚ), (1 : ℚ))).hit_where =
      some (hitWhere ((0 : ℚ), (0 : ℚ)) ((0 : ℚ), (32 : ℚ))
        (castColumn mapNorthWall ((0 : ℚ), (0 : ℚ)) ((0 : ℚ), (1 : ℚ))).face_direction) ∧
    (0 : ℚ) ≤ hitCoord ((0 : ℚ), (0 : ℚ)) ((0 : ℚ), (32 : ℚ)) Cardinal.South ∧
    (0 ≤ hitWhere ((0 : ℚ), (0 : ℚ)) ((0 : ℚ), (32 : ℚ)) Cardinal.South ∧
      hitWhere ((0 : ℚ), (0 : ℚ)) ((0 : ℚ), (32 : ℚ)) Cardinal.South < TILE_SIZE) ∧
    (0 < hitWhere ((0 : ℚ), (0 : ℚ)) ((0 : ℚ), (32 : ℚ)) Cardinal.North ∧
      hitWhere ((0 : ℚ), (0 : ℚ)) ((0 : ℚ), (32 : ℚ)) Cardinal.North ≤ TILE_SIZE) := by
  refine ⟨by decide,
    (c8_hit_where_range mapNorthWall ((0 : ℚ), (0 : ℚ)) ((0 : ℚ), (1 : ℚ))
      ((0 : ℚ), (32 : ℚ)) Cardinal.South).1 (by decide),
    by decide,
    ((c8_hit_where_range mapNorthWall ((0 : ℚ), (0 : ℚ)) ((0 : ℚ), (1 : ℚ))
      ((0 : ℚ), (32 : ℚ)) Cardinal.South).2 (by decide)).1 (Or.inl rfl),
    ((c8_hit_where_range mapNorthWall ((0 : ℚ), (0 : ℚ)) ((0 : ℚ), (1 : ℚ))
      ((0 : ℚ), (32 : ℚ)) Cardinal.North).2 (by decide)).2 (Or.inl rfl)⟩

end Claims

end Yaw
